import Mathlib

/-!
Verification of the safe JNI wrapper described by the repository's design
document against its code. The repository's `src/lib.rs` declares the
wrapper modules (`signature`, `strings`, `descriptors`, `objects`,
`jnienv`, `errors`) but their bodies are not part of the visible sources,
so those components are modelled from the specification text; the
crate-root feature gating is embedded directly from `src/lib.rs`.
-/

namespace Jni

/-! ## Signature parser (wrapper::signature)

Modelled from the spec: the module `wrapper::signature` declared at
src/lib.rs:173-174 is missing from the sources. The grammar is taken
verbatim from the design document section 4.3:
  method-signature = '(' {field-type} ')' return-type
  field-type = primitive-code | 'L' class-name ';' | '[' field-type
  primitive-code in {Z,B,C,S,I,J,F,D,V}
with class names rendered as nonempty runs of characters other than the
terminating ';'. Strings are modelled as lists of characters. -/

/-- Modelled from the spec: the primitive kinds of the descriptor grammar,
one per primitive code letter. -/
inductive Primitive where
  | boolean
  | byte
  | char
  | short
  | int
  | long
  | float
  | double
  | void
  deriving DecidableEq, Repr

/-- Modelled from the spec: a type node of a structured TypeSignature —
Primitive(kind), Object(fully-qualified name), or Array(element type,
arbitrarily nested). -/
inductive JavaType where
  | primitive (p : Primitive)
  | object (name : List Char)
  | array (elem : JavaType)
  deriving DecidableEq, Repr

/-- Modelled from the spec: a TypeSignature is a sequence of parameter
type nodes plus a return type node. -/
structure TypeSignature where
  args : List JavaType
  ret : JavaType
  deriving DecidableEq, Repr

/-- Modelled from the spec: the ways parsing a descriptor can fail —
truncated input, unknown primitive code, missing parenthesis, or trailing
garbage after the return type. -/
inductive ParseError where
  | truncated
  | unknownCode (c : Char)
  | expectedParen
  | emptyClassName
  | trailing
  deriving DecidableEq, Repr

/-- The primitive kind denoted by a primitive code character, if any. -/
def primOfChar (c : Char) : Option Primitive :=
  if c = 'Z' then some .boolean
  else if c = 'B' then some .byte
  else if c = 'C' then some .char
  else if c = 'S' then some .short
  else if c = 'I' then some .int
  else if c = 'J' then some .long
  else if c = 'F' then some .float
  else if c = 'D' then some .double
  else if c = 'V' then some .void
  else none

/-- The primitive code character of a primitive kind. -/
def charOfPrim : Primitive → Char
  | .boolean => 'Z'
  | .byte => 'B'
  | .char => 'C'
  | .short => 'S'
  | .int => 'I'
  | .long => 'J'
  | .float => 'F'
  | .double => 'D'
  | .void => 'V'

/-- Modelled from the spec: parse one field-type from the front of the
input, returning the node and the unconsumed remainder. -/
def parseFieldType : List Char → Except ParseError (JavaType × List Char)
  | [] => .error .truncated
  | c :: rest =>
    if c = '[' then
      match parseFieldType rest with
      | .ok (t, r) => .ok (.array t, r)
      | .error e => .error e
    else if c = 'L' then
      match rest.dropWhile (fun d => d ≠ ';') with
      | [] => .error .truncated
      | _ :: r =>
        if rest.takeWhile (fun d => d ≠ ';') = [] then .error .emptyClassName
        else .ok (.object (rest.takeWhile (fun d => d ≠ ';')), r)
    else
      match primOfChar c with
      | some p => .ok (.primitive p, rest)
      | none => .error (.unknownCode c)

/-- Modelled from the spec: parse the repeated parameter list of
field-types up to and including the closing parenthesis. The fuel
argument bounds the number of parameters; since every field-type consumes
at least one character, fuel equal to the input length always suffices
(see parseParams below). -/
def parseParamsFuel : Nat → List Char → Except ParseError (List JavaType × List Char)
  | 0, _ => .error .truncated
  | _ + 1, [] => .error .truncated
  | fuel + 1, c :: rest =>
    if c = ')' then .ok ([], rest)
    else
      match parseFieldType (c :: rest) with
      | .ok (t, r) =>
        match parseParamsFuel fuel r with
        | .ok (ts, r2) => .ok (t :: ts, r2)
        | .error e => .error e
      | .error e => .error e

/-- Modelled from the spec: parse the parameter list, with enough fuel
for any input. -/
def parseParams (l : List Char) : Except ParseError (List JavaType × List Char) :=
  parseParamsFuel l.length l

/-- Modelled from the spec: parse a full method signature; the whole
input must be consumed. -/
def parseSig (l : List Char) : Except ParseError TypeSignature :=
  match l with
  | '(' :: rest =>
    match parseParams rest with
    | .ok (args, r) =>
      match parseFieldType r with
      | .ok (ret, r2) =>
        if r2 = [] then .ok ⟨args, ret⟩ else .error .trailing
      | .error e => .error e
    | .error e => .error e
  | _ => .error .expectedParen

/-- Modelled from the spec: render one type node back to descriptor
characters. -/
def renderType : JavaType → List Char
  | .primitive p => [charOfPrim p]
  | .object name => 'L' :: (name ++ [';'])
  | .array t => '[' :: renderType t

/-- Modelled from the spec: render a TypeSignature back to its canonical
descriptor string. -/
def render (ts : TypeSignature) : List Char :=
  '(' :: ((ts.args.map renderType).flatten ++ ')' :: renderType ts.ret)

/-- String-level parse, as the crate exposes it. -/
def parse (s : String) : Except ParseError TypeSignature :=
  parseSig s.data

/-- String-level render. -/
def renderString (ts : TypeSignature) : String :=
  String.mk (render ts)

/-- Modelled from the spec: the strings generated by the field-type
production of the grammar — a primitive code, L class-name ; with a
nonempty class name free of the terminator, or a nesting bracket. -/
inductive IsFieldType : List Char → Prop where
  | prim (p : Primitive) : IsFieldType [charOfPrim p]
  | object (name : List Char) (hne : name ≠ [])
      (hsc : ∀ c ∈ name, c ≠ ';') : IsFieldType ('L' :: (name ++ [';']))
  | array (l : List Char) (h : IsFieldType l) : IsFieldType ('[' :: l)

/-- Modelled from the spec: the strings generated by the method-signature
production of the grammar. -/
inductive IsMethodSig : List Char → Prop where
  | mk (params : List (List Char)) (ret : List Char)
      (hp : ∀ p ∈ params, IsFieldType p) (hr : IsFieldType ret) :
      IsMethodSig ('(' :: (params.flatten ++ ')' :: ret))

/-! ## String codec (wrapper::strings)

Modelled from the spec: the module `wrapper::strings` declared at
src/lib.rs:179-180 is missing from the sources. Section 4.5 of the design
document defines the VM's modified string encoding: a UTF-8 variant where
the null code point is escaped as a two-byte sequence (never a literal
zero byte) and code points above the Basic Multilingual Plane are
represented as a surrogate pair each separately UTF-8-encoded; malformed
byte sequences fail to decode with an EncodingError. Host text is
modelled as a list of Unicode scalar values (naturals), byte output as a
list of naturals below 256. -/

/-- Modelled from the spec: a host code point is a Unicode scalar value —
below 0x110000 and not a surrogate. -/
def IsScalar (c : Nat) : Prop :=
  c < 0x110000 ∧ ¬ (0xD800 ≤ c ∧ c < 0xE000)

instance (c : Nat) : Decidable (IsScalar c) := by
  unfold IsScalar
  infer_instance

/-- The three-byte UTF-8 encoding of a code point below 0x10000,
also used for each surrogate half of a supplementary code point. -/
def utf8Three (c : Nat) : List Nat :=
  [0xE0 + c / 0x1000, 0x80 + c / 0x40 % 0x40, 0x80 + c % 0x40]

/-- The standard four-byte UTF-8 encoding that the modified encoding
deliberately avoids for supplementary code points. -/
def utf8Four (c : Nat) : List Nat :=
  [0xF0 + c / 0x40000, 0x80 + c / 0x1000 % 0x40,
   0x80 + c / 0x40 % 0x40, 0x80 + c % 0x40]

/-- The high surrogate half of a supplementary code point. -/
def hiSurrogate (c : Nat) : Nat := 0xD800 + (c - 0x10000) / 0x400

/-- The low surrogate half of a supplementary code point. -/
def loSurrogate (c : Nat) : Nat := 0xDC00 + (c - 0x10000) % 0x400

/-- Modelled from the spec: encode one host code point into the VM's
modified encoding — null escapes to the two-byte sequence C0 80, other
BMP code points use standard UTF-8, and supplementary code points become
two separately UTF-8-encoded surrogate halves. -/
def encodeCp (c : Nat) : List Nat :=
  if c = 0 then [0xC0, 0x80]
  else if c < 0x80 then [c]
  else if c < 0x800 then [0xC0 + c / 0x40, 0x80 + c % 0x40]
  else if c < 0x10000 then utf8Three c
  else utf8Three (hiSurrogate c) ++ utf8Three (loSurrogate c)

/-- Modelled from the spec: encode a host string. -/
def encode (s : List Nat) : List Nat :=
  (s.map encodeCp).flatten

/-- Modelled from the spec: decoding failure — malformed byte sequences
are rejected, never silently substituted. -/
inductive EncodingError where
  | malformed
  deriving DecidableEq, Repr

/-- Decode a two-byte sequence: only the null escape C0 80 and genuine
two-byte code points (0x80 and above) are accepted; other overlong forms
are malformed. -/
def decodeTwo (b0 : Nat) : List Nat → Except EncodingError (Nat × List Nat)
  | b1 :: rest =>
    if 0x80 ≤ b1 ∧ b1 < 0xC0 ∧
        ((b0 - 0xC0) * 0x40 + (b1 - 0x80) = 0 ∨
          0x80 ≤ (b0 - 0xC0) * 0x40 + (b1 - 0x80)) then
      .ok ((b0 - 0xC0) * 0x40 + (b1 - 0x80), rest)
    else .error .malformed
  | [] => .error .malformed

/-- Decode the low surrogate half that must follow a high surrogate half,
and combine the pair into the supplementary code point. -/
def decodeLowHalf (hi : Nat) : List Nat → Except EncodingError (Nat × List Nat)
  | b3 :: b4 :: b5 :: rest =>
    if 0xE0 ≤ b3 ∧ b3 < 0xF0 ∧ 0x80 ≤ b4 ∧ b4 < 0xC0 ∧ 0x80 ≤ b5 ∧ b5 < 0xC0 ∧
        0xDC00 ≤ (b3 - 0xE0) * 0x1000 + (b4 - 0x80) * 0x40 + (b5 - 0x80) ∧
        (b3 - 0xE0) * 0x1000 + (b4 - 0x80) * 0x40 + (b5 - 0x80) < 0xE000 then
      .ok (0x10000 + (hi - 0xD800) * 0x400 +
        ((b3 - 0xE0) * 0x1000 + (b4 - 0x80) * 0x40 + (b5 - 0x80) - 0xDC00), rest)
    else .error .malformed
  | _ => .error .malformed

/-- Classify a decoded three-byte value: below 0x800 is overlong, a high
surrogate half demands a following low half, a lone low half is
malformed, anything else is a BMP code point. -/
def classifyThree (cp : Nat) (rest : List Nat) :
    Except EncodingError (Nat × List Nat) :=
  if cp < 0x800 then .error .malformed
  else if 0xD800 ≤ cp ∧ cp < 0xDC00 then decodeLowHalf cp rest
  else if 0xDC00 ≤ cp ∧ cp < 0xE000 then .error .malformed
  else .ok (cp, rest)

/-- Decode a three-byte sequence, including surrogate-pair combination. -/
def decodeThree (b0 : Nat) : List Nat → Except EncodingError (Nat × List Nat)
  | b1 :: b2 :: rest =>
    if 0x80 ≤ b1 ∧ b1 < 0xC0 ∧ 0x80 ≤ b2 ∧ b2 < 0xC0 then
      classifyThree ((b0 - 0xE0) * 0x1000 + (b1 - 0x80) * 0x40 + (b2 - 0x80)) rest
    else .error .malformed
  | _ => .error .malformed

/-- Modelled from the spec: decode one code point of the modified
encoding from the front of the byte stream. -/
def decodeOne : List Nat → Except EncodingError (Nat × List Nat)
  | [] => .error .malformed
  | b0 :: rest =>
    if b0 < 0x80 then .ok (b0, rest)
    else if b0 < 0xC0 then .error .malformed
    else if b0 < 0xE0 then decodeTwo b0 rest
    else if b0 < 0xF0 then decodeThree b0 rest
    else .error .malformed

/-- Modelled from the spec: decode a full byte stream; the fuel bounds
the number of code points and the stream length always suffices. -/
def decodeFuel : Nat → List Nat → Except EncodingError (List Nat)
  | _, [] => .ok []
  | 0, _ :: _ => .error .malformed
  | fuel + 1, b0 :: rest =>
    match decodeOne (b0 :: rest) with
    | .ok (c, r) =>
      match decodeFuel fuel r with
      | .ok cps => .ok (c :: cps)
      | .error e => .error e
    | .error e => .error e

/-- Modelled from the spec: decode a byte stream of the modified encoding
back into host code points. -/
def decode (bs : List Nat) : Except EncodingError (List Nat) :=
  decodeFuel bs.length bs

/-! ## Error taxonomy (wrapper::errors)

Modelled from the spec: the module `wrapper::errors` declared at
src/lib.rs:168 is missing from the sources; the taxonomy is section 4.7
of the design document. -/

/-- Modelled from the spec: the error taxonomy of the wrapper — VM
exceptions, member-resolution failures, parse and encoding failures,
non-exception call failures such as resource exhaustion, and contract
violations. -/
inductive JniError where
  | vmException (throwableRef : Nat)
  | noSuchMethod
  | noSuchField
  | signatureParse (e : ParseError)
  | encoding (e : EncodingError)
  | jniCallFailure
  | contractViolation
  deriving DecidableEq, Repr

/-! ## Descriptor resolver (wrapper::descriptors)

Modelled from the spec: the module `wrapper::descriptors` declared at
src/lib.rs:170-171 is missing from the sources; resolution behaviour is
section 4.4 of the design document. -/

/-- Modelled from the spec: a class as seen by the resolver — the members
it declares, each a (name, TypeSignature) key mapped to the opaque
VM-assigned ID. -/
structure ClassDef where
  methods : List ((List Char × TypeSignature) × Nat)
  fields : List ((List Char × TypeSignature) × Nat)

/-- Look a member up by name and signature. -/
def lookupMember (ms : List ((List Char × TypeSignature) × Nat))
    (name : List Char) (sig : TypeSignature) : Option Nat :=
  match ms with
  | [] => none
  | (k, i) :: rest => if k = (name, sig) then some i else lookupMember rest name sig

/-- Modelled from the spec: resolve a (class, member name, TypeSignature)
triple to an opaque VM method ID; failure yields NoSuchMethod, distinct
from a VM exception. -/
def resolveMethodId (cls : ClassDef) (name : List Char) (sig : TypeSignature) :
    Except JniError Nat :=
  match lookupMember cls.methods name sig with
  | some i => .ok i
  | none => .error .noSuchMethod

/-- Modelled from the spec: field counterpart of resolveMethodId. -/
def resolveFieldId (cls : ClassDef) (name : List Char) (sig : TypeSignature) :
    Except JniError Nat :=
  match lookupMember cls.fields name sig with
  | some i => .ok i
  | none => .error .noSuchField

/-! ## Weak references (wrapper::objects)

Modelled from the spec: the module `wrapper::objects` declared at
src/lib.rs:176-177 is missing from the sources; Weak semantics are
sections 3 and 4.2 of the design document. -/

/-- Modelled from the spec: the VM heap as weak references observe it —
the set of object identities the collector has already reclaimed. -/
structure VmHeap where
  collected : List Nat
  deriving DecidableEq, Repr

/-- Modelled from the spec: simulated collection of a target. -/
def collectTarget (h : VmHeap) (o : Nat) : VmHeap :=
  ⟨o :: h.collected⟩

/-- Modelled from the spec: upgrading a Weak reference — None if the
target has been collected, Some valid reference otherwise; the operation
is a plain total function, so it never blocks. -/
def upgradeWeak (h : VmHeap) (w : Nat) : Option Nat :=
  if w ∈ h.collected then none else some w

/-! ## Environment handle and exception bridge (wrapper::jnienv)

Modelled from the spec: the module `wrapper::jnienv` declared at
src/lib.rs:182-183 is missing from the sources; the call contract is
sections 4.1 and 4.7 of the design document. -/

/-- Modelled from the spec: the per-thread VM state the Environment
Handle can query — the pending-exception flag with its optional
throwable reference. -/
structure VmState where
  pending : Option Nat
  deriving DecidableEq, Repr

/-- Modelled from the spec: a raw call into the VM through the foreign
call interface — an arbitrary state transition producing a raw value. -/
def RawCall (α : Type) : Type := VmState → α × VmState

/-- Modelled from the spec: the Environment Handle wrapper around every
VM call — run the raw call, then check the pending-exception flag before
reporting success; if the flag is set the result is the VmException
error and the flag is NOT cleared. -/
def checkedCall {α : Type} (raw : RawCall α) (st : VmState) :
    Except JniError α × VmState :=
  match raw st with
  | (v, st2) =>
    match st2.pending with
    | some t => (.error (.vmException t), st2)
    | none => (.ok v, st2)

/-- Modelled from the spec: exception inspection — describe reports the
pending exception without clearing it. -/
def describe (st : VmState) : Option Nat :=
  st.pending

/-- Modelled from the spec: explicit clearing of the pending exception by
the caller. -/
def exceptionClear (_st : VmState) : VmState :=
  ⟨none⟩

/-! ## Reference manager: scoped local frames (wrapper::jnienv)

Modelled from the spec: the local-reference frame operations live in the
missing `wrapper::jnienv` module (src/lib.rs:182-183); frame discipline
is sections 4.2 and 5 of the design document. -/

/-- Modelled from the spec: the per-thread local reference table — a
stack of frames, each holding its reserved capacity and the identities of
the Local references created in it since entry. -/
structure RefTable where
  nextId : Nat
  frames : List (Nat × List Nat)
  deriving DecidableEq, Repr

/-- All Local references currently live in the table. -/
def liveLocals (rt : RefTable) : List Nat :=
  (rt.frames.map (fun f => f.2)).flatten

/-- Modelled from the spec: entering a scoped local frame reserves
local-reference capacity. -/
def pushLocalFrame (cap : Nat) (rt : RefTable) : RefTable :=
  ⟨rt.nextId, (cap, []) :: rt.frames⟩

/-- Modelled from the spec: leaving a frame releases every Local created
since entry. -/
def popLocalFrame (rt : RefTable) : RefTable :=
  ⟨rt.nextId, rt.frames.tail⟩

/-- Modelled from the spec: creating a Local in the current frame;
exceeding the frame's reserved capacity is resource exhaustion reported
as JniCallFailure, never silent truncation. -/
def newLocal (rt : RefTable) : Except JniError (Nat × RefTable) :=
  match rt.frames with
  | [] => .error .jniCallFailure
  | (cap, ids) :: rest =>
    if ids.length < cap then
      .ok (rt.nextId, ⟨rt.nextId + 1, (cap, rt.nextId :: ids) :: rest⟩)
    else .error .jniCallFailure

/-- Modelled from the spec: the observable exit path of a frame body —
normal success, an early error, or an unwind intercepted by the
bridge at the foreign-call boundary. -/
inductive Outcome where
  | ok
  | err (e : JniError)
  | unwound
  deriving DecidableEq, Repr

/-- Modelled from the spec: the actions a frame body can take against the
local reference table. -/
inductive FrameCmd where
  | mkLocal
  | unwind
  deriving DecidableEq, Repr

/-- Run a frame body: create locals until completion, an error, or an
unwind; the body stops at the first failure. -/
def runBody : List FrameCmd → RefTable → Outcome × RefTable
  | [], rt => (.ok, rt)
  | .mkLocal :: cmds, rt =>
    match newLocal rt with
    | .ok (_, rt2) => runBody cmds rt2
    | .error e => (.err e, rt)
  | .unwind :: _, rt => (.unwound, rt)

/-- Modelled from the spec: a scoped frame — push on entry, run the body,
pop on every exit path: normal return, early error, and intercepted
unwind alike. -/
def withLocalFrame (cap : Nat) (body : List FrameCmd) (rt : RefTable) :
    Outcome × RefTable :=
  match runBody body (pushLocalFrame cap rt) with
  | (out, rt2) => (out, popLocalFrame rt2)

/-! ## Crate root feature gating (src/lib.rs)

This part is embedded directly from the code: src/lib.rs lines 145-188
declare `pub mod sys` unconditionally and, under
`cfg(not(feature = "sys-only"))`, the private `wrapper` module whose
public items (public modules errors, descriptors, signature, objects,
strings, plus the items of the private jnienv module re-exported with
`pub use self::jnienv::*`) are re-exported at the crate root by
`pub use wrapper::*`. The private `macros` module is not public and so
is not part of the interface. -/

/-- The public items of the wrapper module in src/lib.rs lines 163-185. -/
inductive WrapperItem where
  | errors
  | descriptors
  | signature
  | objects
  | strings
  | jnienvItems
  deriving DecidableEq, Repr

/-- An item of the crate root's public interface. -/
inductive RootItem where
  | sysMod
  | wrapperReExport (w : WrapperItem)
  deriving DecidableEq, Repr

/-- The wrapper's public items, in declaration order. -/
def wrapperPublicItems : List WrapperItem :=
  [.errors, .descriptors, .signature, .objects, .strings, .jnienvItems]

/-- The public interface of the crate root as a function of the sys-only
feature flag, transcribed from the cfg attributes of src/lib.rs:
`pub mod sys` always (line 146); the wrapper and its root re-export only
when the feature is absent (lines 148-188). -/
def crateRootInterface (sysOnly : Bool) : List RootItem :=
  [RootItem.sysMod] ++
    (if sysOnly then [] else wrapperPublicItems.map RootItem.wrapperReExport)

theorem parseFieldType_consumes :
    ∀ l t r, parseFieldType l = .ok (t, r) → r.length < l.length := by
  intro l
  induction l with
  | nil => intro t r h; simp [parseFieldType] at h
  | cons c rest ih =>
    intro t r h
    rw [parseFieldType] at h
    split at h
    · split at h
      next t0 r0 he =>
        cases h
        have hlt := ih _ _ he
        simp only [List.length_cons]
        omega
      next => cases h
    · split at h
      · split at h
        next => cases h
        next x r1 hd =>
          split at h
          · cases h
          · cases h
            have hlen : (x :: r).length ≤ rest.length := by
              rw [← hd]
              exact (List.dropWhile_sublist _).length_le
            simp only [List.length_cons] at hlen ⊢
            omega
      · split at h
        next p hp => cases h; simp
        next => cases h

theorem charOfPrim_primOfChar {c : Char} {p : Primitive}
    (h : primOfChar c = some p) : charOfPrim p = c := by
  unfold primOfChar at h
  split_ifs at h <;> injection h with h0 <;> subst h0 <;> simp_all [charOfPrim]

theorem primOfChar_charOfPrim (p : Primitive) :
    primOfChar (charOfPrim p) = some p := by
  cases p <;> decide

theorem charOfPrim_ne_lbracket (p : Primitive) : charOfPrim p ≠ '[' := by
  cases p <;> decide

theorem charOfPrim_ne_objTag (p : Primitive) : charOfPrim p ≠ 'L' := by
  cases p <;> decide

theorem charOfPrim_ne_rparen (p : Primitive) : charOfPrim p ≠ ')' := by
  cases p <;> decide

theorem span_marker {p : Char → Bool} :
    ∀ (name : List Char) (x : Char) (r : List Char),
      (∀ c ∈ name, p c = true) → p x = false →
      (name ++ x :: r).takeWhile p = name ∧
      (name ++ x :: r).dropWhile p = x :: r := by
  intro name
  induction name with
  | nil =>
    intro x r _ hx
    simp [List.takeWhile, List.dropWhile, hx]
  | cons a as ih =>
    intro x r hall hx
    have ha : p a = true := hall a (by simp)
    have hrec := ih x r (fun c hc => hall c (by simp [hc])) hx
    simp [List.takeWhile_cons, List.dropWhile_cons, ha, hrec.1, hrec.2]

theorem parseFieldType_sound :
    ∀ l t r, parseFieldType l = .ok (t, r) →
      renderType t ++ r = l ∧ IsFieldType (renderType t) := by
  intro l
  induction l with
  | nil => intro t r h; simp [parseFieldType] at h
  | cons c rest ih =>
    intro t r h
    rw [parseFieldType] at h
    split at h
    next hb =>
      split at h
      next t0 r0 he =>
        cases h
        obtain ⟨h1, h2⟩ := ih _ _ he
        subst hb
        exact ⟨by simp [renderType, h1], .array _ h2⟩
      next => cases h
    next hb =>
      split at h
      next hL =>
        split at h
        next => cases h
        next x r1 hd =>
          split at h
          next => cases h
          next hne =>
            cases h
            subst hL
            have hsplit := List.takeWhile_append_dropWhile
              (fun d => decide (d ≠ ';')) rest
            have hx : x = ';' := by
              have hne2 : rest.dropWhile (fun d => decide (d ≠ ';')) ≠ [] := by
                rw [hd]; simp
              have hhead := List.head_dropWhile_not
                (fun d => decide (d ≠ ';')) rest hne2
              simp only [hd, List.head_cons] at hhead
              simpa using hhead
            subst hx
            constructor
            · rw [renderType]
              have h2 : ('L' :: (rest.takeWhile (fun d => decide (d ≠ ';')) ++ [';']))
                  ++ r = 'L' :: (rest.takeWhile (fun d => decide (d ≠ ';'))
                    ++ ';' :: r) := by simp
              rw [h2, ← hd, hsplit]
            · exact .object _ hne
                (fun c hc => by simpa using List.mem_takeWhile_imp hc)
      next hL =>
        split at h
        next p hp =>
          cases h
          exact ⟨by simp [renderType, charOfPrim_primOfChar hp], .prim p⟩
        next => cases h

theorem parseParamsFuel_sound :
    ∀ fuel l ts r, parseParamsFuel fuel l = .ok (ts, r) →
      (ts.map renderType).flatten ++ ')' :: r = l ∧
      ∀ q ∈ ts.map renderType, IsFieldType q := by
  intro fuel
  induction fuel with
  | zero => intro l ts r h; simp [parseParamsFuel] at h
  | succ fuel ih =>
    intro l ts r h
    cases l with
    | nil => simp [parseParamsFuel] at h
    | cons c rest =>
      rw [parseParamsFuel] at h
      split at h
      next hc =>
        cases h
        subst hc
        simp
      next hc =>
        split at h
        next t r1 he =>
          split at h
          next ts0 r2 hrec =>
            cases h
            obtain ⟨e1, e2⟩ := parseFieldType_sound _ _ _ he
            obtain ⟨f1, f2⟩ := ih _ _ _ hrec
            constructor
            · simp only [List.map_cons, List.flatten_cons, List.append_assoc]
              rw [f1, e1]
            · intro q hq
              simp only [List.map_cons, List.mem_cons] at hq
              rcases hq with hq | hq
              · exact hq ▸ e2
              · exact f2 q hq
          next => cases h
        next => cases h

theorem parseSig_sound (l : List Char) (ts : TypeSignature)
    (h : parseSig l = .ok ts) : render ts = l ∧ IsMethodSig l := by
  unfold parseSig at h
  split at h
  next rest =>
    split at h
    next args r hps =>
      split at h
      next ret r2 hft =>
        split at h
        next hnil =>
          cases h
          subst hnil
          obtain ⟨p1, p2⟩ := parseParamsFuel_sound _ _ _ _ hps
          obtain ⟨q1, q2⟩ := parseFieldType_sound _ _ _ hft
          rw [List.append_nil] at q1
          constructor
          · rw [render]
            simp only
            rw [q1, p1]
          · rw [← p1, ← q1]
            exact .mk (args.map renderType) (renderType ret) p2 q2
        next => cases h
      next => cases h
    next => cases h
  next => cases h

theorem parseFieldType_complete :
    ∀ pre, IsFieldType pre → ∀ r,
      ∃ t, parseFieldType (pre ++ r) = .ok (t, r) ∧ renderType t = pre := by
  intro pre h
  induction h with
  | prim p =>
    intro r
    refine ⟨.primitive p, ?_, rfl⟩
    have : [charOfPrim p] ++ r = charOfPrim p :: r := rfl
    rw [this, parseFieldType, if_neg (charOfPrim_ne_lbracket p),
      if_neg (charOfPrim_ne_objTag p), primOfChar_charOfPrim]
  | object name hne hsc =>
    intro r
    refine ⟨.object name, ?_, rfl⟩
    have hshape : ('L' :: (name ++ [';'])) ++ r = 'L' :: (name ++ ';' :: r) := by
      simp
    rw [hshape, parseFieldType, if_neg (by decide : ¬('L' = '[')), if_pos rfl]
    obtain ⟨ht, hd⟩ := span_marker name ';' r
      (fun c hc => decide_eq_true (hsc c hc)) (by decide)
    rw [hd, ht]
    simp [hne]
  | array l0 h0 ih =>
    intro r
    obtain ⟨t, ht, hrt⟩ := ih r
    refine ⟨.array t, ?_, by simp [renderType, hrt]⟩
    have hshape : ('[' :: l0) ++ r = '[' :: (l0 ++ r) := rfl
    rw [hshape, parseFieldType, if_pos rfl, ht]

theorem IsFieldType.head_cons {pre : List Char} (h : IsFieldType pre) :
    ∃ c tl, pre = c :: tl ∧ c ≠ ')' := by
  cases h with
  | prim p => exact ⟨_, _, rfl, charOfPrim_ne_rparen p⟩
  | object name hne hsc => exact ⟨_, _, rfl, by decide⟩
  | array l h => exact ⟨_, _, rfl, by decide⟩

theorem parseParamsFuel_complete :
    ∀ (params : List (List Char)) (r : List Char) (fuel : Nat),
      (∀ p ∈ params, IsFieldType p) →
      params.flatten.length < fuel →
      ∃ ts, parseParamsFuel fuel (params.flatten ++ ')' :: r) = .ok (ts, r) ∧
        ts.map renderType = params := by
  intro params
  induction params with
  | nil =>
    intro r fuel _ hf
    cases fuel with
    | zero => omega
    | succ fuel => exact ⟨[], by simp [parseParamsFuel], rfl⟩
  | cons p ps ih =>
    intro r fuel hall hf
    have hp := hall p (by simp)
    obtain ⟨c, tl, hpe, hc⟩ := hp.head_cons
    cases fuel with
    | zero => omega
    | succ fuel =>
      obtain ⟨t, hft, hrt⟩ := parseFieldType_complete p hp (ps.flatten ++ ')' :: r)
      have hfuel2 : ps.flatten.length < fuel := by
        rw [hpe] at hf
        simp only [List.flatten_cons, List.length_append, List.length_cons] at hf
        omega
      obtain ⟨ts, hrec, hmap⟩ := ih r fuel (fun q hq => hall q (by simp [hq])) hfuel2
      refine ⟨t :: ts, ?_, by simp [hmap, hrt]⟩
      have heq : (p :: ps).flatten ++ ')' :: r
          = c :: (tl ++ (ps.flatten ++ ')' :: r)) := by
        simp [hpe]
      rw [heq, parseParamsFuel, if_neg hc]
      have hback : c :: (tl ++ (ps.flatten ++ ')' :: r))
          = p ++ (ps.flatten ++ ')' :: r) := by simp [hpe]
      rw [hback, hft]
      simp [hrec]

theorem parseSig_complete (l : List Char) (h : IsMethodSig l) :
    ∃ ts, parseSig l = .ok ts ∧ render ts = l := by
  cases h with
  | mk params ret hp hr =>
    have hflen : params.flatten.length < (params.flatten ++ ')' :: ret).length := by
      simp
    obtain ⟨ts, hps, hmap⟩ := parseParamsFuel_complete params ret _ hp hflen
    obtain ⟨t, hft, hrt⟩ := parseFieldType_complete ret hr []
    rw [List.append_nil] at hft
    refine ⟨⟨ts, t⟩, ?_, ?_⟩
    · rw [parseSig, parseParams, hps]
      simp [hft]
    · rw [render]
      simp only
      rw [hmap, hrt]

/-- C1: for every valid descriptor string of the method-signature grammar,
parsing succeeds and rendering the parse result yields the input back
exactly: render(parse(s)) == s. -/
theorem render_parse_roundtrip (l : List Char) (h : IsMethodSig l) :
    ∃ ts, parseSig l = Except.ok ts ∧ render ts = l :=
  parseSig_complete l h

/-- Witness for C1 at the concrete descriptor (Ljava/lang/String;I)V. -/
theorem render_parse_roundtrip_witness :
    ∃ ts, parseSig ("(Ljava/lang/String;I)V".data) = Except.ok ts ∧
      render ts = "(Ljava/lang/String;I)V".data := by
  refine render_parse_roundtrip _ ?_
  have hshape : "(Ljava/lang/String;I)V".data =
      '(' :: (([('L' :: ("java/lang/String".data ++ [';'])), ['I']].flatten)
        ++ ')' :: ['V']) := by decide
  rw [hshape]
  refine IsMethodSig.mk [_, _] _ ?_ (IsFieldType.prim .void)
  intro p hp
  simp only [List.mem_cons, List.not_mem_nil, or_false] at hp
  rcases hp with h | h <;> subst h
  · exact IsFieldType.object _ (by decide) (by decide)
  · exact IsFieldType.prim .int

/-- C2: the parser is total over the grammar: any input string outside the
method-signature grammar yields a ParseError. Totality of the Lean
function (it is a plain def, defined on all inputs) models that parsing
never aborts, and by parseSig_sound a successful result only arises for
strings of the grammar — never a partial or guessed TypeSignature. -/
theorem parse_total_outside_grammar (l : List Char) (h : ¬ IsMethodSig l) :
    ∃ e, parseSig l = Except.error e := by
  cases hr : parseSig l with
  | ok ts => exact absurd (parseSig_sound l ts hr).2 h
  | error e => exact ⟨e, rfl⟩

/-- Witness for C2 at the concrete non-grammar input consisting of a lone
opening parenthesis. -/
theorem parse_total_outside_grammar_witness :
    (¬ IsMethodSig ['(']) ∧ ∃ e, parseSig ['('] = Except.error e := by
  have h : ¬ IsMethodSig ['('] := by
    intro hm
    obtain ⟨ts, hts, -⟩ := parseSig_complete _ hm
    simp [parseSig, parseParams, parseParamsFuel] at hts
  exact ⟨h, parse_total_outside_grammar ['('] h⟩

/-- C9: the descriptor (Ljava/lang/String;I)V parses to the TypeSignature
with parameters [Object(java/lang/String), Primitive(Int)] and return
type Void. -/
theorem scenario_a_parse :
    parse "(Ljava/lang/String;I)V" =
      Except.ok ⟨[JavaType.object "java/lang/String".data,
                  JavaType.primitive Primitive.int],
                 JavaType.primitive Primitive.void⟩ := by
  rfl

theorem decodeOne_encodeCp {c : Nat} (h : IsScalar c) (rest : List Nat) :
    decodeOne (encodeCp c ++ rest) = .ok (c, rest) := by
  obtain ⟨h1, h2⟩ := h
  by_cases hc0 : c = 0
  · subst hc0
    show decodeOne (0xC0 :: 0x80 :: rest) = _
    rw [decodeOne, if_neg (by norm_num), if_neg (by norm_num),
      if_pos (by norm_num), decodeTwo, if_pos (by norm_num)]
  · by_cases hA : c < 0x80
    · rw [show encodeCp c = [c] from by rw [encodeCp, if_neg hc0, if_pos hA]]
      show decodeOne (c :: rest) = _
      rw [decodeOne, if_pos hA]
    · by_cases hB : c < 0x800
      · rw [show encodeCp c = [0xC0 + c / 0x40, 0x80 + c % 0x40] from by
          rw [encodeCp, if_neg hc0, if_neg hA, if_pos hB]]
        show decodeOne ((0xC0 + c / 0x40) :: (0x80 + c % 0x40) :: rest) = _
        rw [decodeOne, if_neg (by omega), if_neg (by omega), if_pos (by omega),
          decodeTwo, if_pos (by omega)]
        have hval : (0xC0 + c / 0x40 - 0xC0) * 0x40 + (0x80 + c % 0x40 - 0x80)
            = c := by omega
        rw [hval]
      · by_cases hC : c < 0x10000
        · rw [show encodeCp c = utf8Three c from by
            rw [encodeCp, if_neg hc0, if_neg hA, if_neg hB, if_pos hC]]
          show decodeOne ((0xE0 + c / 0x1000) :: (0x80 + c / 0x40 % 0x40)
            :: (0x80 + c % 0x40) :: rest) = _
          rw [decodeOne, if_neg (by omega), if_neg (by omega), if_neg (by omega),
            if_pos (by omega), decodeThree, if_pos (by omega)]
          have hval : (0xE0 + c / 0x1000 - 0xE0) * 0x1000
              + (0x80 + c / 0x40 % 0x40 - 0x80) * 0x40
              + (0x80 + c % 0x40 - 0x80) = c := by omega
          rw [hval, classifyThree, if_neg (by omega), if_neg (by omega),
            if_neg (by omega)]
        · rw [show encodeCp c
              = utf8Three (hiSurrogate c) ++ utf8Three (loSurrogate c) from by
            rw [encodeCp, if_neg hc0, if_neg hA, if_neg hB, if_neg hC]]
          have hhi1 : 0xD800 ≤ hiSurrogate c := by unfold hiSurrogate; omega
          have hhi2 : hiSurrogate c < 0xDC00 := by unfold hiSurrogate; omega
          have hlo1 : 0xDC00 ≤ loSurrogate c := by unfold loSurrogate; omega
          have hlo2 : loSurrogate c < 0xE000 := by unfold loSurrogate; omega
          show decodeOne ((0xE0 + hiSurrogate c / 0x1000)
            :: (0x80 + hiSurrogate c / 0x40 % 0x40)
            :: (0x80 + hiSurrogate c % 0x40)
            :: ((0xE0 + loSurrogate c / 0x1000)
            :: (0x80 + loSurrogate c / 0x40 % 0x40)
            :: (0x80 + loSurrogate c % 0x40) :: rest)) = _
          rw [decodeOne, if_neg (by omega), if_neg (by omega), if_neg (by omega),
            if_pos (by omega), decodeThree, if_pos (by omega)]
          have hval : (0xE0 + hiSurrogate c / 0x1000 - 0xE0) * 0x1000
              + (0x80 + hiSurrogate c / 0x40 % 0x40 - 0x80) * 0x40
              + (0x80 + hiSurrogate c % 0x40 - 0x80) = hiSurrogate c := by omega
          rw [hval, classifyThree, if_neg (by omega), if_pos (by omega),
            decodeLowHalf, if_pos (by omega)]
          have hfinal : 0x10000 + (hiSurrogate c - 0xD800) * 0x400
              + ((0xE0 + loSurrogate c / 0x1000 - 0xE0) * 0x1000
                + (0x80 + loSurrogate c / 0x40 % 0x40 - 0x80) * 0x40
                + (0x80 + loSurrogate c % 0x40 - 0x80) - 0xDC00) = c := by
            unfold hiSurrogate loSurrogate
            omega
          rw [hfinal]

theorem encodeCp_ne_nil (c : Nat) : encodeCp c ≠ [] := by
  unfold encodeCp
  split_ifs <;> simp [utf8Three]

theorem decodeFuel_encode :
    ∀ (s : List Nat) (fuel : Nat), (∀ c ∈ s, IsScalar c) → s.length ≤ fuel →
      decodeFuel fuel (encode s) = .ok s := by
  intro s
  induction s with
  | nil =>
    intro fuel _ _
    show decodeFuel fuel [] = .ok []
    cases fuel <;> rfl
  | cons c s2 ih =>
    intro fuel hall hlen
    cases fuel with
    | zero => simp at hlen
    | succ f =>
      have hc := hall c (by simp)
      have hshape : encode (c :: s2) = encodeCp c ++ encode s2 := by
        simp [encode]
      cases hb : encodeCp c with
      | nil => exact absurd hb (encodeCp_ne_nil c)
      | cons b bs =>
        rw [hshape, hb]
        show decodeFuel (f + 1) (b :: (bs ++ encode s2)) = _
        rw [decodeFuel]
        have hdec : decodeOne (b :: (bs ++ encode s2)) = .ok (c, encode s2) := by
          have hstep := decodeOne_encodeCp hc (encode s2)
          rw [hb] at hstep
          simpa using hstep
        rw [hdec]
        show (match decodeFuel f (encode s2) with
          | Except.ok cps => Except.ok (c :: cps)
          | Except.error e => Except.error e) = Except.ok (c :: s2)
        rw [ih f (fun x hx => hall x (by simp [hx])) (by simpa using hlen)]

theorem encode_length_lower (s : List Nat) : s.length ≤ (encode s).length := by
  induction s with
  | nil => simp [encode]
  | cons c s2 ih =>
    have hne := encodeCp_ne_nil c
    have hone : 1 ≤ (encodeCp c).length := by
      cases hb : encodeCp c with
      | nil => exact absurd hb hne
      | cons b bs => simp
    simp only [encode, List.map_cons, List.flatten_cons, List.length_append,
      List.length_cons]
    simp only [encode] at ih
    omega

/-- C5: for every host string without unpaired surrogate code points —
modelled as a list of Unicode scalar values — decoding the encoding gives
the string back: decode(encode(s)) == s. -/
theorem decode_encode_roundtrip (s : List Nat) (h : ∀ c ∈ s, IsScalar c) :
    decode (encode s) = Except.ok s :=
  decodeFuel_encode s (encode s).length h (encode_length_lower s)

/-- Witness for C5 on a concrete string containing an ASCII letter, an
embedded null, two BMP code points and a supplementary code point. -/
theorem decode_encode_roundtrip_witness :
    (∀ c ∈ [0x48, 0, 0x7FF, 0x4E2D, 0x1F600], IsScalar c) ∧
      decode (encode [0x48, 0, 0x7FF, 0x4E2D, 0x1F600]) =
        Except.ok [0x48, 0, 0x7FF, 0x4E2D, 0x1F600] :=
  ⟨by decide, decode_encode_roundtrip _ (by decide)⟩

theorem encodeCp_no_zero (c : Nat) :
    ∀ b ∈ encodeCp c, b ≠ 0 := by
  intro b hb
  unfold encodeCp at hb
  split_ifs at hb with h0 hA hB hC
  · simp at hb
    omega
  · simp at hb
    omega
  · simp at hb
    omega
  · simp [utf8Three] at hb
    omega
  · simp [utf8Three] at hb
    omega

theorem encodeCp_supplementary {c : Nat} (hc : 0x10000 ≤ c) :
    encodeCp c = utf8Three (hiSurrogate c) ++ utf8Three (loSurrogate c) := by
  rw [encodeCp, if_neg (by omega), if_neg (by omega), if_neg (by omega),
    if_neg (by omega)]

/-- C6: encoding never emits a literal zero byte — the null code point is
escaped as the two-byte sequence C0 80 — and every supplementary code
point is emitted as two separately UTF-8-encoded surrogate halves, not as
the single four-byte UTF-8 sequence. -/
theorem encode_null_escaped_and_surrogate_pairs (s : List Nat)
    (h : ∀ c ∈ s, IsScalar c) :
    encodeCp 0 = [0xC0, 0x80] ∧
    (∀ b ∈ encode s, b ≠ 0) ∧
    (∀ c ∈ s, 0x10000 ≤ c →
      encodeCp c = utf8Three (hiSurrogate c) ++ utf8Three (loSurrogate c) ∧
      0xD800 ≤ hiSurrogate c ∧ hiSurrogate c < 0xDC00 ∧
      0xDC00 ≤ loSurrogate c ∧ loSurrogate c < 0xE000 ∧
      encodeCp c ≠ utf8Four c) := by
  refine ⟨rfl, ?_, ?_⟩
  · intro b hb
    simp only [encode, List.mem_flatten, List.mem_map] at hb
    obtain ⟨bs, ⟨c, hcs, rfl⟩, hbbs⟩ := hb
    exact encodeCp_no_zero c b hbbs
  · intro c hcs hc
    have hsupp := encodeCp_supplementary hc
    refine ⟨hsupp, by unfold hiSurrogate; omega, ?_,
      by unfold loSurrogate; omega, ?_, ?_⟩
    · have := (h c hcs).1
      unfold hiSurrogate
      omega
    · have := (h c hcs).1
      unfold loSurrogate
      omega
    · intro heq
      have hlen := congrArg List.length heq
      simp [encodeCp_supplementary hc, utf8Three, utf8Four] at hlen

/-- Witness for C6 at the concrete string with an embedded null and one
supplementary code point. -/
theorem encode_null_escaped_and_surrogate_pairs_witness :
    (∀ c ∈ [0, 0x1F600], IsScalar c) ∧
    (encodeCp 0 = [0xC0, 0x80] ∧
      (∀ b ∈ encode [0, 0x1F600], b ≠ 0) ∧
      (∀ c ∈ [0, 0x1F600], 0x10000 ≤ c →
        encodeCp c = utf8Three (hiSurrogate c) ++ utf8Three (loSurrogate c) ∧
        0xD800 ≤ hiSurrogate c ∧ hiSurrogate c < 0xDC00 ∧
        0xDC00 ≤ loSurrogate c ∧ loSurrogate c < 0xE000 ∧
        encodeCp c ≠ utf8Four c)) :=
  ⟨by decide, encode_null_escaped_and_surrogate_pairs _ (by decide)⟩

theorem runBody_keeps_frame_below :
    ∀ (cmds : List FrameCmd) (n cap : Nat) (ids : List Nat)
      (fs : List (Nat × List Nat)),
      ∃ n2 ids2, (runBody cmds ⟨n, (cap, ids) :: fs⟩).2 = ⟨n2, (cap, ids2) :: fs⟩ := by
  intro cmds
  induction cmds with
  | nil => intro n cap ids fs; exact ⟨n, ids, rfl⟩
  | cons cmd cmds ih =>
    intro n cap ids fs
    cases cmd with
    | unwind => exact ⟨n, ids, rfl⟩
    | mkLocal =>
      rw [runBody]
      by_cases hlt : ids.length < cap
      · have hnl : newLocal ⟨n, (cap, ids) :: fs⟩
            = .ok (n, ⟨n + 1, (cap, n :: ids) :: fs⟩) := by
          rw [newLocal]
          simp only [if_pos hlt]
        rw [hnl]
        exact ih (n + 1) cap (n :: ids) fs
      · have hnl : newLocal ⟨n, (cap, ids) :: fs⟩ = .error .jniCallFailure := by
          rw [newLocal]
          simp only [if_neg hlt]
        rw [hnl]
        exact ⟨n, ids, rfl⟩

theorem withLocalFrame_frames (cap : Nat) (body : List FrameCmd) (rt : RefTable) :
    (withLocalFrame cap body rt).2.frames = rt.frames := by
  obtain ⟨n, fs⟩ := rt
  obtain ⟨n2, ids2, hrb⟩ := runBody_keeps_frame_below body n cap [] fs
  rw [withLocalFrame]
  cases hr : runBody body (pushLocalFrame cap ⟨n, fs⟩) with
  | mk out rt2 =>
    have : rt2 = ⟨n2, (cap, ids2) :: fs⟩ := by
      have := hrb
      rw [show pushLocalFrame cap ⟨n, fs⟩ = ⟨n, (cap, []) :: fs⟩ from rfl] at hr
      rw [hr] at this
      exact this
    rw [this]
    rfl

theorem runBody_overflow :
    ∀ (N n cap : Nat) (ids : List Nat) (fs : List (Nat × List Nat)),
      ids.length ≤ cap → cap < ids.length + N →
      (runBody (List.replicate N .mkLocal) ⟨n, (cap, ids) :: fs⟩).1
        = .err .jniCallFailure := by
  intro N
  induction N with
  | zero => intro n cap ids fs h1 h2; omega
  | succ N ih =>
    intro n cap ids fs h1 h2
    rw [List.replicate_succ, runBody]
    by_cases hlt : ids.length < cap
    · have hnl : newLocal ⟨n, (cap, ids) :: fs⟩
          = .ok (n, ⟨n + 1, (cap, n :: ids) :: fs⟩) := by
        rw [newLocal]
        simp only [if_pos hlt]
      rw [hnl]
      exact ih (n + 1) cap (n :: ids) fs (by simp only [List.length_cons]; omega)
        (by simp only [List.length_cons]; omega)
    · have hnl : newLocal ⟨n, (cap, ids) :: fs⟩ = .error .jniCallFailure := by
        rw [newLocal]
        simp only [if_neg hlt]
      rw [hnl]

/-- C4: every Local created inside a scoped frame is released when the
frame exits, on every exit path — the body may complete, fail early, or
unwind into the intercepting bridge, and in all cases the table below the
frame is restored, so the live locals afterwards are exactly those before
entry; and filling a frame of capacity C with N > C locals reports
JniCallFailure resource exhaustion rather than silently truncating. -/
theorem local_frame_discipline (cap : Nat) (body : List FrameCmd)
    (rt : RefTable) (N : Nat) (hN : cap < N) :
    (withLocalFrame cap body rt).2.frames = rt.frames ∧
    liveLocals (withLocalFrame cap body rt).2 = liveLocals rt ∧
    (withLocalFrame cap (List.replicate N .mkLocal) rt).1
      = .err .jniCallFailure := by
  refine ⟨withLocalFrame_frames cap body rt, ?_, ?_⟩
  · rw [liveLocals, liveLocals, withLocalFrame_frames cap body rt]
  · obtain ⟨n, fs⟩ := rt
    have hov := runBody_overflow N n cap [] fs (by simp) (by simpa using hN)
    rw [withLocalFrame]
    cases hr : runBody (List.replicate N .mkLocal) (pushLocalFrame cap ⟨n, fs⟩) with
    | mk out rt2 =>
      rw [show pushLocalFrame cap ⟨n, fs⟩ = ⟨n, (cap, []) :: fs⟩ from rfl] at hr
      rw [hr] at hov
      exact hov

/-- Witness for C4: a frame of capacity 1, a body that makes one local
and then unwinds, and an overfill of 2 locals. -/
theorem local_frame_discipline_witness :
    (withLocalFrame 1 [.mkLocal, .unwind] ⟨0, []⟩).2.frames = ([] : List (Nat × List Nat)) ∧
    liveLocals (withLocalFrame 1 [.mkLocal, .unwind] ⟨0, []⟩).2 = liveLocals ⟨0, []⟩ ∧
    (withLocalFrame 1 (List.replicate 2 .mkLocal) ⟨0, []⟩).1
      = .err .jniCallFailure :=
  local_frame_discipline 1 [.mkLocal, .unwind] ⟨0, []⟩ 2 (by decide)

/-- C3: for every call into the VM through the Environment Handle, the
pending-exception flag is checked before the call reports success — a
successful result implies no pending exception; a set flag forces the
VmException error naming the pending throwable; the wrapper never clears
the flag itself, so the exception stays inspectable via describe until
the caller explicitly clears it. -/
theorem checked_call_exception_contract {α : Type} (raw : RawCall α)
    (st : VmState) :
    (∀ v st2, checkedCall raw st = (Except.ok v, st2) → st2.pending = none) ∧
    (∀ t, (raw st).2.pending = some t →
      checkedCall raw st = (Except.error (JniError.vmException t), (raw st).2) ∧
      describe (checkedCall raw st).2 = some t) ∧
    (checkedCall raw st).2.pending = (raw st).2.pending ∧
    describe (exceptionClear (checkedCall raw st).2) = none := by
  cases hr : raw st with
  | mk v0 st0 =>
    cases hp : st0.pending with
    | some t0 =>
      refine ⟨?_, ?_, ?_, rfl⟩
      · intro v st2 hcc
        simp only [checkedCall, hr, hp] at hcc
        cases hcc
      · intro t ht
        cases ht
        constructor
        · simp only [checkedCall, hr, hp]
        · simp only [describe, checkedCall, hr, hp]
      · simp only [checkedCall, hr, hp]
    | none =>
      refine ⟨?_, ?_, ?_, rfl⟩
      · intro v st2 hcc
        simp only [checkedCall, hr, hp] at hcc
        cases hcc
        exact hp
      · intro t ht
        exact Option.noConfusion ht
      · simp only [checkedCall, hr, hp]

/-- Witness for C3: a raw call that leaves throwable 7 pending, started
from a clean state. -/
theorem checked_call_exception_contract_witness :
    (∀ v st2, checkedCall (fun _ => ((), VmState.mk (some 7))) ⟨none⟩
        = (Except.ok v, st2) → st2.pending = none) ∧
    (∀ t, ((fun (_ : VmState) => ((), VmState.mk (some 7))) (⟨none⟩ : VmState)).2.pending = some t →
      checkedCall (fun _ => ((), VmState.mk (some 7))) ⟨none⟩
          = (Except.error (JniError.vmException t),
            ((fun (_ : VmState) => ((), VmState.mk (some 7))) (⟨none⟩ : VmState)).2) ∧
      describe (checkedCall (fun _ => ((), VmState.mk (some 7))) ⟨none⟩).2 = some t) ∧
    (checkedCall (fun _ => ((), VmState.mk (some 7))) ⟨none⟩).2.pending
      = ((fun (_ : VmState) => ((), VmState.mk (some 7))) (⟨none⟩ : VmState)).2.pending ∧
    describe (exceptionClear (checkedCall (fun _ => ((), VmState.mk (some 7))) ⟨none⟩).2) = none :=
  checked_call_exception_contract (fun _ => ((), VmState.mk (some 7))) ⟨none⟩

/-- C7: upgrading a Weak reference yields None exactly when the target
has been collected and Some valid reference otherwise; after simulated
collection of the target, upgrade yields None. Upgrade is a plain total
function of the heap, modelling that it never blocks. -/
theorem upgrade_weak_semantics (h : VmHeap) (w : Nat) :
    (w ∈ h.collected → upgradeWeak h w = none) ∧
    (w ∉ h.collected → upgradeWeak h w = some w) ∧
    upgradeWeak (collectTarget h w) w = none := by
  refine ⟨fun hc => by rw [upgradeWeak, if_pos hc],
    fun hc => by rw [upgradeWeak, if_neg hc], ?_⟩
  rw [upgradeWeak, collectTarget]
  simp

/-- Witness for C7 at a heap where object 3 is collected. -/
theorem upgrade_weak_semantics_witness :
    (3 ∈ (VmHeap.mk [3]).collected → upgradeWeak ⟨[3]⟩ 3 = none) ∧
    (3 ∉ (VmHeap.mk [3]).collected → upgradeWeak ⟨[3]⟩ 3 = some 3) ∧
    upgradeWeak (collectTarget ⟨[3]⟩ 3) 3 = none :=
  upgrade_weak_semantics ⟨[3]⟩ 3

/-- C8: resolving a member that does not exist on a valid class yields
NoSuchMethod (or NoSuchField for fields), and the result is never
classified as a VmException. -/
theorem resolve_missing_member (cls : ClassDef) (name : List Char)
    (sig : TypeSignature)
    (hm : lookupMember cls.methods name sig = none)
    (hf : lookupMember cls.fields name sig = none) :
    (resolveMethodId cls name sig = Except.error JniError.noSuchMethod ∧
      ∀ t, resolveMethodId cls name sig ≠ Except.error (JniError.vmException t)) ∧
    (resolveFieldId cls name sig = Except.error JniError.noSuchField ∧
      ∀ t, resolveFieldId cls name sig ≠ Except.error (JniError.vmException t)) := by
  constructor
  · constructor
    · rw [resolveMethodId, hm]
    · intro t hcontra
      rw [resolveMethodId, hm] at hcontra
      cases hcontra
  · constructor
    · rw [resolveFieldId, hf]
    · intro t hcontra
      rw [resolveFieldId, hf] at hcontra
      cases hcontra

/-- Witness for C8: looking a method named foo with signature ()V up on a
class that declares no members. -/
theorem resolve_missing_member_witness :
    (resolveMethodId ⟨[], []⟩ "foo".data ⟨[], .primitive .void⟩
        = Except.error JniError.noSuchMethod ∧
      ∀ t, resolveMethodId ⟨[], []⟩ "foo".data ⟨[], .primitive .void⟩
        ≠ Except.error (JniError.vmException t)) ∧
    (resolveFieldId ⟨[], []⟩ "foo".data ⟨[], .primitive .void⟩
        = Except.error JniError.noSuchField ∧
      ∀ t, resolveFieldId ⟨[], []⟩ "foo".data ⟨[], .primitive .void⟩
        ≠ Except.error (JniError.vmException t)) :=
  resolve_missing_member ⟨[], []⟩ "foo".data ⟨[], .primitive .void⟩ rfl rfl

/-- C10: with the sys-only feature the crate's public interface is the
sys module alone — the entire safe wrapper is compiled out — and without
the feature every public item of the wrapper module is additionally
re-exported at the crate root, alongside sys. -/
theorem sys_only_feature_gate :
    crateRootInterface true = [RootItem.sysMod] ∧
    (∀ w : WrapperItem, RootItem.wrapperReExport w ∈ crateRootInterface false) ∧
    RootItem.sysMod ∈ crateRootInterface false := by
  refine ⟨rfl, ?_, by simp [crateRootInterface]⟩
  intro w
  cases w <;> simp [crateRootInterface, wrapperPublicItems]

end Jni
